import Mathlib

/-!
Verification development for the esbuild HTML plugin (`src/index.ts`).

The TypeScript source is shallowly embedded: strings are `List Char`,
JavaScript builtins used by the plugin (`String.prototype.replace`,
`RegExp`, the Node `path` module) are modelled as Lean functions with the
same observable semantics, and the plugin's own functions
(`escapeRegExp`, `collectEntrypoints`, `findNameRelatedOutputFiles`,
`renderTemplate`, `joinWithPublicPath`, `injectFilesToHtmlTemplate`,
and the per-target part of the `onEnd` handler) are translated directly.
-/

set_option maxHeartbeats 1000000
set_option maxRecDepth 100000

/-- Strings are modelled as lists of characters. -/
abbrev Str := List Char

/-- Boolean test that `p` is a leading segment of `s` (JS `startsWith`). -/
def leadsWith : Str → Str → Bool
  | [], _ => true
  | _ :: _, [] => false
  | a :: as, b :: bs => a = b && leadsWith as bs

/--
Model of the first-occurrence search underlying JS
`String.prototype.replace` with a string pattern: returns the split
`(before, after)` around the first occurrence of `p` in `s`, or `none`
when `p` does not occur in `s`.
-/
def findSubstr (p : Str) : Str → Option (Str × Str)
  | [] => if leadsWith p [] then some ([], []) else none
  | c :: cs =>
    if leadsWith p (c :: cs) then some ([], (c :: cs).drop p.length)
    else (findSubstr p cs).map (fun ba => (c :: ba.1, ba.2))

/--
Model of the ECMAScript GetSubstitution processing applied to the
replacement string of `String.prototype.replace` when the pattern is a
plain string (no capture groups): handles the escapes for dollar,
ampersand, backquote and quote; every other use of the dollar character
is passed through literally.
-/
def getSubstitution (m b a : Str) : Str → Str
  | [] => []
  | [c] => [c]
  | c :: d :: t =>
    if c = '$' then
      if d = '$' then '$' :: getSubstitution m b a t
      else if d = '&' then m ++ getSubstitution m b a t
      else if d = Char.ofNat 96 then b ++ getSubstitution m b a t
      else if d = Char.ofNat 39 then a ++ getSubstitution m b a t
      else '$' :: getSubstitution m b a (d :: t)
    else c :: getSubstitution m b a (d :: t)

/--
Model of JS `s.replace(p, r)` with string pattern and string
replacement: replaces the first occurrence of `p` in `s` with the
substitution-processed `r`; returns `s` unchanged when `p` does not
occur.
-/
def jsReplace (s p r : Str) : Str :=
  match findSubstr p s with
  | none => s
  | some (b, a) => b ++ getSubstitution p b a r ++ a

/-! ### Model of the Node `path` module (posix flavour)

The plugin runs the posix code paths (`path.sep === '/'`); Windows
separator conversion in `posixJoin` is then the identity. `path.resolve`
(used internally by `path.relative`) depends on the process working
directory, which is threaded through explicitly as a `cwd` parameter
(assumed absolute, as `process.cwd()` always is). -/

/-- Split a string on the slash character, keeping empty segments. -/
def splitOnSlash (s : Str) : List Str :=
  s.foldr
    (fun c acc =>
      match acc with
      | [] => if c = '/' then [[], []] else [[c]]
      | h :: t => if c = '/' then [] :: h :: t else (c :: h) :: t)
    [[]]

/-- Join segments with a slash character. -/
def joinSlash : List Str → Str
  | [] => []
  | [x] => x
  | x :: xs => x ++ '/' :: joinSlash xs

/--
The segment-stack processing of Node `normalizeString`: drops empty and
dot segments, resolves dot-dot segments against the stack, and keeps
leading dot-dot segments only when `allowUp` is set. `acc` is the stack
of already-processed segments in reverse order.
-/
def normSegsAux (allowUp : Bool) : List Str → List Str → List Str
  | acc, [] => acc.reverse
  | acc, seg :: rest =>
    if seg = [] ∨ seg = (".".data) then normSegsAux allowUp acc rest
    else if seg = ("..".data) then
      match acc with
      | top :: accT =>
        if top = ("..".data) then
          if allowUp then normSegsAux allowUp (seg :: acc) rest
          else normSegsAux allowUp acc rest
        else normSegsAux allowUp accT rest
      | [] =>
        if allowUp then normSegsAux allowUp [seg] rest
        else normSegsAux allowUp [] rest
    else normSegsAux allowUp (seg :: acc) rest

/-- Model of Node posix `path.normalize`. -/
def posixNormalize (p : Str) : Str :=
  if p = [] then (".".data)
  else
    let isAbs := decide (p.head? = some '/')
    let trailing := decide (p.getLast? = some '/')
    let n0 := joinSlash (normSegsAux (!isAbs) [] (splitOnSlash p))
    let n1 := if n0.isEmpty && !isAbs then (".".data) else n0
    let n2 := if !n1.isEmpty && trailing then n1 ++ ['/'] else n1
    if isAbs then '/' :: n2 else n2

/-- Model of Node posix `path.join` on a list of segments. -/
def posixJoinList (ps : List Str) : Str :=
  let joined := joinSlash (ps.filter (fun s => !s.isEmpty))
  if joined.isEmpty then (".".data) else posixNormalize joined

/--
The plugin's `posixJoin` helper restricted to its two-argument uses; on
posix (`path.sep === '/'`) it is exactly `path.join`.
-/
def posixJoin2 (a b : Str) : Str := posixJoinList [a, b]

/-- Model of Node posix `path.resolve` on a single argument, with the
process working directory passed explicitly. -/
def posixResolve (cwd p : Str) : Str :=
  let full := if p.head? = some '/' then p else cwd ++ '/' :: p
  '/' :: joinSlash (normSegsAux false [] (splitOnSlash full))

/-- Non-empty segments of the resolved form of a path. -/
def resolvedSegs (cwd p : Str) : List Str :=
  (splitOnSlash (posixResolve cwd p)).filter (fun s => !s.isEmpty)

/-- Drop the common leading segments of two segment lists. -/
def dropCommonSegs : List Str → List Str → List Str × List Str
  | a :: as, b :: bs =>
    if a = b then dropCommonSegs as bs else (a :: as, b :: bs)
  | as, bs => (as, bs)

/-- Model of Node posix `path.relative`, with the process working
directory passed explicitly. -/
def posixRelative (cwd f t : Str) : Str :=
  let pr := dropCommonSegs (resolvedSegs cwd f) (resolvedSegs cwd t)
  joinSlash (pr.1.map (fun _ => ("..".data)) ++ pr.2)

/-- Model of Node posix `path.dirname`. -/
def posixDirname (p : Str) : Str :=
  if p = [] then (".".data)
  else
    let hasRoot := decide (p.head? = some '/')
    let rev := (p.drop 1).reverse
    let r1 := rev.dropWhile (fun c => c = '/')
    let r2 := r1.dropWhile (fun c => c ≠ '/')
    if r2.isEmpty then (if hasRoot then ("/".data) else (".".data))
    else if hasRoot && r2.length = 1 then ("//".data)
    else p.take r2.length

/-- Result record of Node `path.parse`. -/
structure PathParts where
  root : Str
  dir : Str
  base : Str
  ext : Str
  name : Str
  deriving DecidableEq, Repr

/-- Scan state of the Node posix `path.parse` end-of-string scan;
`-1` sentinels are kept as in the source. -/
structure PScan where
  startDot : Int
  startPart : Nat
  endIdx : Int
  matchedSlash : Bool
  preDot : Int
  deriving Repr

/--
The backwards character scan of Node posix `path.parse`, translated
index-for-index: the `Nat` argument is `i + 1` for the current index
`i`, counting down to `rootEnd`.
-/
def parseScanAux (p : Str) (rootEnd : Nat) : Nat → PScan → PScan
  | 0, st => st
  | i + 1, st =>
    if i < rootEnd then st
    else
      let c := p.getD i ' '
      if c = '/' then
        if !st.matchedSlash then { st with startPart := i + 1 }
        else parseScanAux p rootEnd i st
      else
        let st1 :=
          if st.endIdx = -1 then { st with matchedSlash := false, endIdx := (i : Int) + 1 }
          else st
        let st2 :=
          if c = '.' then
            if st1.startDot = -1 then { st1 with startDot := (i : Int) }
            else if st1.preDot ≠ 1 then { st1 with preDot := 1 }
            else st1
          else if st1.startDot ≠ -1 then { st1 with preDot := -1 }
          else st1
        parseScanAux p rootEnd i st2

/-- Model of Node posix `path.parse`. -/
def posixParse (p : Str) : PathParts :=
  if p = [] then ⟨[], [], [], [], []⟩
  else
    let isAbs := decide (p.head? = some '/')
    let rootEnd : Nat := if isAbs then 1 else 0
    let st := parseScanAux p rootEnd p.length ⟨-1, rootEnd, -1, true, 0⟩
    let root : Str := if isAbs then ("/".data) else []
    let slice := fun (x y : Nat) => (p.take y).drop x
    let noExt :=
      st.startDot = -1 ∨ st.endIdx = -1 ∨ st.preDot = 0 ∨
        (st.preDot = 1 ∧ st.startDot = st.endIdx - 1 ∧ st.startDot = (st.startPart : Int) + 1)
    let base : Str :=
      if st.endIdx = -1 then []
      else if noExt then slice st.startPart st.endIdx.toNat
      else slice st.startPart st.endIdx.toNat
    let name : Str :=
      if st.endIdx = -1 then []
      else if noExt then slice st.startPart st.endIdx.toNat
      else slice st.startPart st.startDot.toNat
    let ext : Str :=
      if noExt then [] else slice st.startDot.toNat st.endIdx.toNat
    let dir : Str :=
      if st.startPart > 0 ∧ st.startPart ≠ rootEnd then slice 0 (st.startPart - 1)
      else root
    ⟨root, dir, base, ext, name⟩

/-! ### Model of the JS `RegExp` engine

`findNameRelatedOutputFiles` builds regular-expression source strings
and evaluates them with `new RegExp(...).exec/.test`. The patterns that
construction can produce consist of literal characters, identity
escapes, the classes `\S`/`\s`, bracket classes with ranges, named
capture groups over such classes, and the quantifiers `+ ? * {n}`.
The model parses exactly this fragment (returning `none` on anything
outside it) and runs a JS-faithful leftmost, greedy, backtracking
match. -/

/-- Ranges of the ECMAScript `\s` (whitespace) character class. -/
def jsWhitespaceRanges : List (Char × Char) :=
  [(Char.ofNat 9, Char.ofNat 13), (' ', ' '), (Char.ofNat 160, Char.ofNat 160),
   (Char.ofNat 0x1680, Char.ofNat 0x1680), (Char.ofNat 0x2000, Char.ofNat 0x200a),
   (Char.ofNat 0x2028, Char.ofNat 0x2029), (Char.ofNat 0x202f, Char.ofNat 0x202f),
   (Char.ofNat 0x205f, Char.ofNat 0x205f), (Char.ofNat 0x3000, Char.ofNat 0x3000),
   (Char.ofNat 0xfeff, Char.ofNat 0xfeff)]

/-- Ranges of the ECMAScript line-terminator set (what `.` excludes). -/
def jsLineTerminatorRanges : List (Char × Char) :=
  [(Char.ofNat 10, Char.ofNat 10), (Char.ofNat 13, Char.ofNat 13),
   (Char.ofNat 0x2028, Char.ofNat 0x2029)]

/-- A character class: a union of inclusive ranges, possibly negated. -/
structure RxClass where
  neg : Bool
  ranges : List (Char × Char)
  deriving DecidableEq, Repr

/-- A regex quantifier of the supported fragment. -/
inductive RxQuant where
  | one
  | opt
  | star
  | plus
  | rep (n : Nat)
  deriving DecidableEq, Repr

/-- A piece of a parsed pattern: a quantified character class, or a
named capture group over a sequence of quantified classes. -/
inductive RxPiece where
  | chr (cc : RxClass) (q : RxQuant)
  | group (nm : Str) (inner : List (RxClass × RxQuant))
  deriving DecidableEq, Repr

/-- Membership test of a character in a class. -/
def rxTestChar (cc : RxClass) (c : Char) : Bool :=
  let inR := cc.ranges.any (fun r => decide (r.1 ≤ c) && decide (c ≤ r.2))
  if cc.neg then !inR else inR

/-- Parse the items of a bracket class, up to the closing bracket. -/
def parseSetItems : Nat → Str → Option (List (Char × Char) × Str)
  | 0, _ => none
  | _ + 1, [] => none
  | f + 1, c :: rest =>
    if c = ']' then some ([], rest)
    else if c = '\\' then
      match rest with
      | [] => none
      | d :: rest2 =>
        if d = 's' then
          (parseSetItems f rest2).map (fun pr => (jsWhitespaceRanges ++ pr.1, pr.2))
        else if d.isAlpha || d.isDigit then none
        else (parseSetItems f rest2).map (fun pr => ((d, d) :: pr.1, pr.2))
    else
      match rest with
      | '-' :: d :: rest2 =>
        if d = ']' then
          (parseSetItems f ('-' :: d :: rest2)).map (fun pr => ((c, c) :: pr.1, pr.2))
        else if d = '\\' then none
        else (parseSetItems f rest2).map (fun pr => ((c, d) :: pr.1, pr.2))
      | _ => (parseSetItems f rest).map (fun pr => ((c, c) :: pr.1, pr.2))

/-- Parse a bracket class body (after the opening bracket). -/
def parseBracketClass (s : Str) : Option (RxClass × Str) :=
  match s with
  | '^' :: rest => (parseSetItems (rest.length + 1) rest).map (fun pr => (⟨true, pr.1⟩, pr.2))
  | _ => (parseSetItems (s.length + 1) s).map (fun pr => (⟨false, pr.1⟩, pr.2))

/-- Parse one class atom: a bracket class, an escape, a dot, or a
literal character. -/
def parseOneAtom : Str → Option (RxClass × Str)
  | [] => none
  | c :: rest =>
    if c = '[' then parseBracketClass rest
    else if c = '\\' then
      match rest with
      | [] => none
      | d :: r2 =>
        if d = 'S' then some (⟨true, jsWhitespaceRanges⟩, r2)
        else if d = 's' then some (⟨false, jsWhitespaceRanges⟩, r2)
        else if d.isAlpha || d.isDigit then none
        else some (⟨false, [(d, d)]⟩, r2)
    else if c = '.' then some (⟨true, jsLineTerminatorRanges⟩, rest)
    else if c = '^' || c = '$' || c = '(' || c = ')' || c = '|' ||
            c = '*' || c = '+' || c = '?' then none
    else some (⟨false, [(c, c)]⟩, rest)

/-- Accumulate a decimal number from digit characters. -/
def digitsToNat (ds : Str) : Nat :=
  ds.foldl (fun n c => n * 10 + (c.toNat - 48)) 0

/-- Parse an optional postfix quantifier; a brace that does not form a
valid `{n}` bound is left in place (it parses later as a literal, as in
JS). -/
def parseQuantifier (s : Str) : RxQuant × Str :=
  match s with
  | '+' :: r => (.plus, r)
  | '?' :: r => (.opt, r)
  | '*' :: r => (.star, r)
  | '{' :: r =>
    match r.span (fun c => c.isDigit) with
    | ([], _) => (.one, s)
    | (ds, rest) =>
      match rest with
      | '}' :: r2 => (.rep (digitsToNat ds), r2)
      | _ => (.one, s)
  | _ => (.one, s)

/-- Parse a group body: a sequence of quantified class atoms. -/
def parseChrSeq : Nat → Str → Option (List (RxClass × RxQuant))
  | 0, s => if s.isEmpty then some [] else none
  | _ + 1, [] => some []
  | f + 1, s =>
    match parseOneAtom s with
    | none => none
    | some (cc, r) =>
      let qr := parseQuantifier r
      (parseChrSeq f qr.2).map (fun tl => (cc, qr.1) :: tl)

/-- Parse a whole pattern of the supported fragment into pieces. -/
def parsePiecesAux : Nat → Str → Option (List RxPiece)
  | 0, s => if s.isEmpty then some [] else none
  | _ + 1, [] => some []
  | f + 1, c :: rest =>
    if c = '(' then
      match rest with
      | '?' :: '<' :: r2 =>
        let sp := r2.span (fun ch => ch ≠ '>')
        match sp.2 with
        | '>' :: r4 =>
          let sp2 := r4.span (fun ch => ch ≠ ')')
          match sp2.2 with
          | ')' :: r6 =>
            match parseChrSeq (sp2.1.length + 1) sp2.1 with
            | none => none
            | some chrs =>
              match parseQuantifier r6 with
              | (RxQuant.one, _) =>
                (parsePiecesAux f r6).map (fun tl => RxPiece.group sp.1 chrs :: tl)
              | _ => none
          | _ => none
        | _ => none
      | _ => none
    else if c = ')' || c = '|' then none
    else
      match parseOneAtom (c :: rest) with
      | none => none
      | some (cc, r) =>
        let qr := parseQuantifier r
        (parsePiecesAux f qr.2).map (fun tl => RxPiece.chr cc qr.1 :: tl)

/-- Parse a regex source string (supported fragment only). -/
def parseRegex (s : Str) : Option (List RxPiece) :=
  parsePiecesAux (s.length + 1) s

/-- Length of the longest run of leading characters of `s` in class `cc`. -/
def runLen (cc : RxClass) : Str → Nat
  | [] => 0
  | c :: rest => if rxTestChar cc c then runLen cc rest + 1 else 0

/-- Candidate consumption counts for a quantifier over a single-character
class, in greedy (longest-first) order, given the maximal run `m`. -/
def countsFor (q : RxQuant) (m : Nat) : List Nat :=
  match q with
  | .one => if 1 ≤ m then [1] else []
  | .opt => if 1 ≤ m then [1, 0] else [0]
  | .star => (List.range (m + 1)).reverse
  | .plus => ((List.range (m + 1)).reverse).filter (fun n => 0 < n)
  | .rep n => if n ≤ m then [n] else []

/-- Try alternatives in order, taking the first success. -/
def tryCounts {α : Type} : List Nat → (Nat → Option α) → Option α
  | [], _ => none
  | n :: ns, f =>
    match f n with
    | some x => some x
    | none => tryCounts ns f

/-- Backtracking matcher for a sequence of quantified classes, in
continuation-passing style over the remaining input. -/
def runChrs {α : Type} : List (RxClass × RxQuant) → Str → (Str → Option α) → Option α
  | [], s, k => k s
  | (cc, q) :: rest, s, k =>
    tryCounts (countsFor q (runLen cc s)) (fun i => runChrs rest (s.drop i) k)

/-- Backtracking matcher for a piece list; `caps` accumulates named
captures along the currently explored path. -/
def runPieces {α : Type} :
    List RxPiece → Str → List (Str × Str) → (Str → List (Str × Str) → Option α) → Option α
  | [], s, caps, k => k s caps
  | .chr cc q :: ps, s, caps, k =>
    tryCounts (countsFor q (runLen cc s)) (fun i => runPieces ps (s.drop i) caps k)
  | .group nm chrs :: ps, s, caps, k =>
    runChrs chrs s (fun s2 => runPieces ps s2 (caps ++ [(nm, s.take (s.length - s2.length))]) k)

/-- Match the pieces at the start of `s`, returning the named captures. -/
def regexExecFrom (ps : List RxPiece) (s : Str) : Option (List (Str × Str)) :=
  runPieces ps s [] (fun _ caps => some caps)

/-- Unanchored search, as JS `exec`: try each start position, leftmost
first. -/
def regexExecSearch (ps : List RxPiece) : Str → Option (List (Str × Str))
  | [] => regexExecFrom ps []
  | c :: rest =>
    match regexExecFrom ps (c :: rest) with
    | some caps => some caps
    | none => regexExecSearch ps rest

/-- JS `RegExp.prototype.test`. -/
def regexTest (ps : List RxPiece) (s : Str) : Bool :=
  (regexExecSearch ps s).isSome

/-- Look up a named capture (JS `match.groups?.[nm]`). -/
def capLookup (caps : List (Str × Str)) (nm : Str) : Option Str :=
  (caps.find? (fun pr => decide (pr.1 = nm))).map (fun pr => pr.2)

/-! ### The plugin's regex-string construction (`src/index.ts` 55-59, 70-72, 106-122) -/

/-- The character class of the source's `escapeRegExp` replacement
regex: `[-[\]{}()*+?.,\\^$|#\s]`. -/
def regexSpecialChars : List Char :=
  ['-', '[', ']', '{', '}', '(', ')', '*', '+', '?', '.', ',', '\\', '^', '$', '|', '#']

/-- Test for membership in the `escapeRegExp` character class. -/
def isRegexEscapeChar (c : Char) : Bool :=
  regexSpecialChars.contains c || jsWhitespaceRanges.any (fun r => decide (r.1 ≤ c) && decide (c ≤ r.2))

/-- The source's `escapeRegExp`: every matched character is replaced by
itself preceded by a backslash (`'\\$&'`), globally. -/
def escapeRegExp (text : Str) : Str :=
  text.foldr (fun c acc => (if isRegexEscapeChar c then ['\\', c] else [c]) ++ acc) []

/-- `REGEXES.DIR_REGEX` from the source. -/
def DIR_REGEX : Str := ("(?<dir>\\S+\\/?)".data)

/-- `REGEXES.HASH_REGEX` from the source. -/
def HASH_REGEX : Str := ("(?<hash>[A-Z2-7]{8})".data)

/-- `REGEXES.NAME_REGEX` from the source. -/
def NAME_REGEX : Str := ("(?<name>[^\\s\\/]+)".data)

/-- The escaped `[hash]` placeholder, the string pattern `'\\[hash\\]'`
passed to `replace` in the source. -/
def ESC_HASH_PAT : Str := ("\\[hash\\]".data)

/-- The escaped `[name]` placeholder pattern `'\\[name\\]'`. -/
def ESC_NAME_PAT : Str := ("\\[name\\]".data)

/-- The escaped `[dir]` placeholder pattern `'\\[dir\\]'`. -/
def ESC_DIR_PAT : Str := ("\\[dir\\]".data)

/-- First-pass pattern source (`src/index.ts` 106-109):
`escapeRegExp(entryNames)` with the escaped placeholders replaced by the
capture regexes, hash first, then name, then dir. -/
def findVariablesRegexString (entryNames : Str) : Str :=
  jsReplace
    (jsReplace
      (jsReplace (escapeRegExp entryNames) ESC_HASH_PAT HASH_REGEX)
      ESC_NAME_PAT NAME_REGEX)
    ESC_DIR_PAT DIR_REGEX

/-- Second-pass pattern source (`src/index.ts` 120-121): the raw
`entryNames` with `[name]`/`[dir]` replaced by the captured literals,
escaped, then the escaped `[hash]` placeholder replaced by the hash
capture regex. -/
def findFilesWithSameVariablesRegexString (entryNames nm dir : Str) : Str :=
  jsReplace
    (escapeRegExp (jsReplace (jsReplace entryNames ("[name]".data) nm) ("[dir]".data) dir))
    ESC_HASH_PAT HASH_REGEX

/-! ### Data model (`esbuild.Metafile` outputs, plugin configuration) -/

/-- One value of the build metadata `outputs` mapping, restricted to the
fields the plugin reads. -/
structure OutputMeta where
  entryPoint : Option Str := none
  cssBundle : Option Str := none
  deriving DecidableEq, Repr

/-- The metafile `outputs` mapping: output path to record, in insertion
order (JS object iteration order). -/
abbrev Outputs := List (Str × OutputMeta)

/-- A flattened output (`{ path: outputData[0], ...outputData[1] }`). -/
structure ResolvedAsset where
  path : Str
  entryPoint : Option Str := none
  cssBundle : Option Str := none
  deriving DecidableEq, Repr

/-- The `scriptLoading` configuration values. -/
inductive ScriptLoading where
  | blocking
  | defer
  | module
  deriving DecidableEq, Repr

/-- `HtmlFileConfiguration`, restricted to the fields the modelled code
reads (`title`, `favicon`, `inline`, `extraScripts` and `hash` are never
consulted by `src/index.ts`). The boolean fields carry the defaults the
plugin assigns at normalization time (`findRelatedOutputFiles: false`,
`findRelatedCssFiles: true`). -/
structure HtmlFileConfiguration where
  filename : Str
  entryPoints : List Str
  htmlTemplate : Option Str := none
  define : Option (List (Str × Str)) := none
  scriptLoading : Option ScriptLoading := none
  findRelatedCssFiles : Bool := true
  findRelatedOutputFiles : Bool := false
  deriving DecidableEq, Repr

/-- Flatten one `outputs` entry into an asset (`src/index.ts` 88-91). -/
def flattenOutput (kv : Str × OutputMeta) : ResolvedAsset :=
  { path := kv.1, entryPoint := kv.2.entryPoint, cssBundle := kv.2.cssBundle }

/-- `collectEntrypoints` (`src/index.ts` 82-93): outputs whose truthy
`entryPoint` is contained in the configured `entryPoints`, flattened. -/
def collectEntrypoints (cfg : HtmlFileConfiguration) (outputs : Outputs) : List ResolvedAsset :=
  (outputs.filter (fun kv =>
    match kv.2.entryPoint with
    | none => false
    | some ep => !ep.isEmpty && cfg.entryPoints.contains ep)).map flattenOutput

/-- The `entryNames`-unset branch of `findNameRelatedOutputFiles`
(`src/index.ts` 129-137): outputs with the same parsed `name` and `dir`
as the anchor. -/
def fallbackRelated (parsed : PathParts) (outputs : Outputs) : List ResolvedAsset :=
  (outputs.filter (fun kv =>
    decide ((posixParse kv.1).name = parsed.name) &&
    decide ((posixParse kv.1).dir = parsed.dir))).map flattenOutput

/--
`findNameRelatedOutputFiles` (`src/index.ts` 95-138). `entryNames` is
`build.initialOptions.entryNames` (`none` when unset; the empty string
is falsy and also selects the fallback branch). The result is `none`
only when a constructed pattern falls outside the modelled regex
fragment (never the case for patterns this construction produces).
-/
def findNameRelatedOutputFiles (entrypoint : ResolvedAsset) (outputs : Outputs)
    (entryNames : Option Str) : Option (List ResolvedAsset) :=
  let parsed := posixParse entrypoint.path
  match entryNames with
  | some en =>
    if en.isEmpty then some (fallbackRelated parsed outputs)
    else
      let joinedPathOfMatch := posixJoin2 parsed.dir parsed.name
      match parseRegex (findVariablesRegexString en) with
      | none => none
      | some ps1 =>
        let mtch := regexExecSearch ps1 joinedPathOfMatch
        let nm := mtch.bind (fun caps => capLookup caps ("name".data))
        let dir := mtch.bind (fun caps => capLookup caps ("dir".data))
        match parseRegex
            (findFilesWithSameVariablesRegexString en (nm.getD []) (dir.getD [])) with
        | none => none
        | some ps2 =>
          some ((outputs.filter (fun kv => regexTest ps2 kv.1)).map flattenOutput)
  | none => some (fallbackRelated parsed outputs)

/-! ### Template rendering and path joining -/

/-- The source's `defaultHtmlTemplate` string. -/
def defaultHtmlTemplate : Str :=
  ("\n<!DOCTYPE html>\n<html>\n  <head>\n    <meta charset=\"utf-8\" />\n  </head>\n  <body>\n  </body>\n</html>\n".data)

/--
`renderTemplate` (`src/index.ts` 140-153). The filesystem (which files
exist and their contents) and the external `lodash.template`
substitution engine are passed as explicit collaborator functions;
everything else is translated directly: a truthy `htmlTemplate` naming
an existing file loads its contents, otherwise the string itself (or
the empty string when falsy) is used, an empty result falls back to the
default template, and the engine runs only when `define` is supplied.
-/
def renderTemplate (fsFiles : Str → Option Str)
    (lodashTemplate : Str → List (Str × Str) → Str)
    (htmlTemplate : Option Str) (define : Option (List (Str × Str))) : Str :=
  let customHtmlTemplate : Str :=
    match htmlTemplate with
    | some t =>
      if t.isEmpty then []
      else
        match fsFiles t with
        | some content => content
        | none => t
    | none => []
  let template := if customHtmlTemplate.isEmpty then defaultHtmlTemplate else customHtmlTemplate
  match define with
  | none => template
  | some d => lodashTemplate template d

/-- `joinWithPublicPath` (`src/index.ts` 157-169). -/
def joinWithPublicPath (publicPath relPath : Str) : Str :=
  let relPath := posixNormalize relPath
  let publicPath := if publicPath.isEmpty then (".".data) else publicPath
  let slash : Str := if publicPath.getLast? = some '/' then [] else ['/']
  publicPath ++ slash ++ relPath

/-! ### Tag construction and injection (`src/index.ts` 171-205) -/

/-- The `targetPath` computation for one asset (`src/index.ts` 175-181):
with a truthy `publicPath` it joins the public path with the asset path
relative to the output directory; otherwise it is the asset path
relative to the directory containing the emitted HTML file. -/
def targetPathFor (cwd outDir : Str) (publicPath : Option Str)
    (cfg : HtmlFileConfiguration) (filepath : Str) : Str :=
  let viaRelative :=
    let htmlFileDirectory := posixJoin2 outDir cfg.filename
    posixRelative cwd (posixDirname htmlFileDirectory) filepath
  match publicPath with
  | some pp => if pp.isEmpty then viaRelative else joinWithPublicPath pp (posixRelative cwd outDir filepath)
  | none => viaRelative

/-- The script/link markup emitted for one asset (`src/index.ts`
183-201), as the concatenation `scriptElement ++ linkCssElement`. A
`.js` asset under `scriptLoading: 'blocking'` leaves `scriptElement`
empty, exactly as the source's `if`/`else if` chain does. -/
def elementFor (cwd outDir : Str) (publicPath : Option Str)
    (cfg : HtmlFileConfiguration) (outputFile : ResolvedAsset) : Str :=
  let targetPath := targetPathFor cwd outDir publicPath cfg outputFile.path
  let ext := (posixParse outputFile.path).ext
  if ext = (".js".data) then
    match cfg.scriptLoading with
    | some ScriptLoading.module =>
      ("<script src=\"".data) ++ targetPath ++ ("\" type=\"module\"></script>".data)
    | none =>
      ("<script src=\"".data) ++ targetPath ++ ("\" defer></script>".data)
    | some ScriptLoading.defer =>
      ("<script src=\"".data) ++ targetPath ++ ("\" defer></script>".data)
    | some ScriptLoading.blocking => []
  else if ext = (".css".data) then
    ("<link rel=\"stylesheet\" href=\"".data) ++ targetPath ++ ("\">".data)
  else []

/-- `elementsStringToInject` (`src/index.ts` 172-202): concatenation of
the per-asset markup in asset order. -/
def elementsStringToInject (cwd outDir : Str) (publicPath : Option Str)
    (cfg : HtmlFileConfiguration) (assets : List ResolvedAsset) : Str :=
  (assets.map (elementFor cwd outDir publicPath cfg)).flatten

/-- The injection anchor, the literal string `'</title>'`. -/
def TITLE_CLOSE : Str := ("</title>".data)

/-- `injectFilesToHtmlTemplate` (`src/index.ts` 171-205):
`htmlTemplate.replace('</title>', '</title>' + elementsStringToInject)`. -/
def injectFilesToHtmlTemplate (cwd : Str) (htmlTemplate : Str)
    (assets : List ResolvedAsset) (outDir : Str) (publicPath : Option Str)
    (cfg : HtmlFileConfiguration) : Str :=
  jsReplace htmlTemplate TITLE_CLOSE
    (TITLE_CLOSE ++ elementsStringToInject cwd outDir publicPath cfg assets)

/-! ### Per-target collection (`src/index.ts` 226-260) -/

/-- JS `Map.prototype.set` on an insertion-ordered association list: an
existing key keeps its position and gets the new value; a new key is
appended. -/
def mapSet (m : List (Str × ResolvedAsset)) (k : Str) (v : ResolvedAsset) :
    List (Str × ResolvedAsset) :=
  if m.any (fun pr => decide (pr.1 = k)) then
    m.map (fun pr => if pr.1 = k then (pr.1, v) else pr)
  else m ++ [(k, v)]

/-- The `relatedOutputFiles` map built for one anchor entrypoint
(`src/index.ts` 237-248): the anchor itself, then its truthy `cssBundle`
when `findRelatedCssFiles` is set, then the pattern-matched related
outputs when `findRelatedOutputFiles` is set. -/
def relatedOutputFilesMap (cfg : HtmlFileConfiguration) (outputs : Outputs)
    (entryNames : Option Str) (entrypoint : ResolvedAsset) :
    Option (List (Str × ResolvedAsset)) :=
  let m0 := mapSet [] entrypoint.path entrypoint
  let m1 :=
    if cfg.findRelatedCssFiles then
      match entrypoint.cssBundle with
      | some cb => if cb.isEmpty then m0 else mapSet m0 cb { path := cb }
      | none => m0
    else m0
  if cfg.findRelatedOutputFiles then
    (findNameRelatedOutputFiles entrypoint outputs entryNames).map
      (fun items => items.foldl (fun m it => mapSet m it.path it) m1)
  else some m1

/-- The values of the per-anchor related map, in insertion order
(`[...relatedOutputFiles.values()]`). -/
def relatedOutputFilesFor (cfg : HtmlFileConfiguration) (outputs : Outputs)
    (entryNames : Option Str) (entrypoint : ResolvedAsset) : Option (List ResolvedAsset) :=
  (relatedOutputFilesMap cfg outputs entryNames entrypoint).map (fun m => m.map (fun pr => pr.2))

/-- `collectedOutputFiles` for one HTML target (`src/index.ts` 231-251):
the concatenation, over the collected entrypoints, of each anchor's
related-map values. -/
def collectedOutputFiles (cfg : HtmlFileConfiguration) (outputs : Outputs)
    (entryNames : Option Str) : Option (List ResolvedAsset) :=
  (collectEntrypoints cfg outputs).foldl
    (fun acc ep => acc.bind (fun l =>
      (relatedOutputFilesFor cfg outputs entryNames ep).map (fun r => l ++ r)))
    (some [])

/-- The `if (!entrypoint)` guard of the `onEnd` loop (`src/index.ts`
234-236). The loop iterates over the array `collectEntrypoints`
returned; its elements are objects produced by `.map`, which are always
truthy, so the guard never holds. -/
def entrypointIsFalsy (_ : ResolvedAsset) : Bool := false

/-- Join strings with commas (JS array-to-string conversion inside the
template literal of the error message). -/
def joinCommas : List Str → Str
  | [] => []
  | [x] => x
  | x :: xs => x ++ ',' :: joinCommas xs

/--
The per-target body of the `onEnd` handler (`src/index.ts` 226-260), up
to the point where the final HTML text is handed to the file writer:
collect the entrypoints, run the (dead) unmatched-entrypoint guard,
expand each anchor with its related files, render the template and
inject. `Except.error` carries a thrown error message; the outer
`Option` is `none` only when the regex model cannot interpret a
constructed pattern.
-/
def processHtmlFileConfiguration (cwd : Str) (fsFiles : Str → Option Str)
    (lodashTemplate : Str → List (Str × Str) → Str)
    (cfg : HtmlFileConfiguration) (outputs : Outputs) (entryNames : Option Str)
    (outdir : Str) (publicPath : Option Str) : Option (Except Str Str) :=
  let collectedEntrypoints := collectEntrypoints cfg outputs
  if collectedEntrypoints.any entrypointIsFalsy then
    some (Except.error (("Found no match for ".data) ++ joinCommas cfg.entryPoints))
  else
    (collectedOutputFiles cfg outputs entryNames).map (fun files =>
      Except.ok (injectFilesToHtmlTemplate cwd
        (renderTemplate fsFiles lodashTemplate cfg.htmlTemplate cfg.define)
        files outdir publicPath cfg))

/-! ### Key-value invariants of the per-anchor related map -/

/-- Well-formedness of the association list modelling the JS `Map`: keys
are pairwise distinct and every stored asset's `path` equals its key. -/
def MapKV (m : List (Str × ResolvedAsset)) : Prop :=
  (m.map Prod.fst).Nodup ∧ ∀ pr ∈ m, pr.2.path = pr.1

/-! ### Concrete fixtures used by the claim theorems -/

/-- A minimal target configuration with default option values. -/
def fixtureConfig : HtmlFileConfiguration :=
  { filename := ("index.html".data), entryPoints := [("app.ts".data)] }

/-- The target configuration with a chosen `scriptLoading` mode. -/
def fixtureConfigWith (sl : Option ScriptLoading) : HtmlFileConfiguration :=
  { filename := ("index.html".data), entryPoints := [("app.ts".data)], scriptLoading := sl }

/-- An empty model filesystem (no template file exists). -/
def fixtureNoFiles : Str → Option Str := fun _ => none

/-- A trivial stand-in for the external substitution engine. -/
def fixtureEngine : Str → List (Str × Str) → Str := fun t _ => t

/-- Metafile outputs with one entry point that is not `app.ts`. -/
def fixtureUnmatchedOutputs : Outputs :=
  [(("dist/other.js".data), { entryPoint := some ("other.ts".data) })]

/-- A target requesting two entry points whose outputs share one
`cssBundle` path. -/
def fixturePairConfig : HtmlFileConfiguration :=
  { filename := ("index.html".data), entryPoints := [("a.ts".data), ("b.ts".data)] }

/-- Metafile outputs for `fixturePairConfig`: two entry-point outputs
pointing at the same stylesheet bundle. -/
def fixturePairOutputs : Outputs :=
  [(("dist/a.js".data),
    { entryPoint := some ("a.ts".data), cssBundle := some ("dist/shared.css".data) }),
   (("dist/b.js".data),
    { entryPoint := some ("b.ts".data), cssBundle := some ("dist/shared.css".data) })]

/-- A target with both related-file mechanisms enabled. -/
def fixtureOverlapConfig : HtmlFileConfiguration :=
  { filename := ("index.html".data), entryPoints := [("app.ts".data)],
    findRelatedCssFiles := true, findRelatedOutputFiles := true }

/-- Outputs where the anchor's `cssBundle` is also discoverable by the
same-name/same-dir pattern fallback. -/
def fixtureOverlapOutputs : Outputs :=
  [(("dist/app.js".data),
    { entryPoint := some ("app.ts".data), cssBundle := some ("dist/app.css".data) }),
   (("dist/app.css".data), {})]

/-- The anchor asset of `fixtureOverlapOutputs`. -/
def fixtureOverlapAnchor : ResolvedAsset :=
  { path := ("dist/app.js".data), entryPoint := some ("app.ts".data),
    cssBundle := some ("dist/app.css".data) }

/-- The metafile of the hash-template scenario of the spec. -/
def fixtureHashOutputs : Outputs :=
  [(("assets/app-AB2C3D4E.css".data), {}), (("assets/other-ZZ222222.js".data), {})]

/-! ### Lemmas about the string-replace model -/

theorem leadsWith_append (p t : Str) : leadsWith p (p ++ t) = true := by
  induction p with
  | nil => rfl
  | cons c cs ih => simp [leadsWith, ih]

theorem leadsWith_iff {p s : Str} : leadsWith p s = true ↔ ∃ t, s = p ++ t := by
  induction p generalizing s with
  | nil => simp [leadsWith]
  | cons c cs ih =>
    cases s with
    | nil => simp [leadsWith]
    | cons d ds =>
      simp only [leadsWith, Bool.and_eq_true, decide_eq_true_eq, ih, List.cons_append,
        List.cons.injEq]
      constructor
      · rintro ⟨h1, t, h2⟩
        exact ⟨t, h1.symm, h2⟩
      · rintro ⟨t, h1, h2⟩
        exact ⟨h1.symm, t, h2⟩

theorem findSubstr_nil (p : Str) :
    findSubstr p [] = if leadsWith p [] then some (([] : Str), ([] : Str)) else none := rfl

theorem findSubstr_cons (p : Str) (c : Char) (cs : Str) :
    findSubstr p (c :: cs) =
      if leadsWith p (c :: cs) then some (([] : Str), (c :: cs).drop p.length)
      else (findSubstr p cs).map (fun ba => (c :: ba.1, ba.2)) := rfl

theorem findSubstr_eq {p s b a : Str} (h : findSubstr p s = some (b, a)) :
    s = b ++ p ++ a := by
  induction s generalizing b a with
  | nil =>
    rw [findSubstr_nil] at h
    by_cases hp : leadsWith p [] = true
    · rw [if_pos hp] at h
      obtain ⟨hb, ha⟩ := Prod.mk.injEq .. ▸ Option.some.inj h
      obtain ⟨t, ht⟩ := leadsWith_iff.mp hp
      obtain ⟨hp0, ht0⟩ := List.append_eq_nil.mp ht.symm
      subst hb; subst ha; subst hp0
      rfl
    · rw [if_neg hp] at h
      exact absurd h (by simp)
  | cons c cs ih =>
    rw [findSubstr_cons] at h
    by_cases hp : leadsWith p (c :: cs) = true
    · rw [if_pos hp] at h
      obtain ⟨hb, ha⟩ := Prod.mk.injEq .. ▸ Option.some.inj h
      obtain ⟨t, ht⟩ := leadsWith_iff.mp hp
      subst hb; subst ha
      conv_lhs => rw [ht]
      rw [ht, List.drop_left]
      rfl
    · rw [if_neg hp] at h
      simp only [Option.map_eq_some'] at h
      obtain ⟨⟨b0, a0⟩, hrec, hba⟩ := h
      obtain ⟨hb, ha⟩ := Prod.mk.injEq .. ▸ hba
      subst hb; subst ha
      simp [ih hrec]

theorem findSubstr_first {p s b a : Str} (h : findSubstr p s = some (b, a)) :
    ∀ b' a', s = b' ++ p ++ a' → b.length ≤ b'.length := by
  induction s generalizing b a with
  | nil =>
    intro b' a' _
    rw [findSubstr_nil] at h
    by_cases hp : leadsWith p [] = true
    · rw [if_pos hp] at h
      obtain ⟨hb, _⟩ := Prod.mk.injEq .. ▸ Option.some.inj h
      subst hb
      simp
    · rw [if_neg hp] at h
      exact absurd h (by simp)
  | cons c cs ih =>
    intro b' a' hocc
    rw [findSubstr_cons] at h
    by_cases hp : leadsWith p (c :: cs) = true
    · rw [if_pos hp] at h
      obtain ⟨hb, _⟩ := Prod.mk.injEq .. ▸ Option.some.inj h
      subst hb
      simp
    · rw [if_neg hp] at h
      simp only [Option.map_eq_some'] at h
      obtain ⟨⟨b0, a0⟩, hrec, hba⟩ := h
      obtain ⟨hb, _⟩ := Prod.mk.injEq .. ▸ hba
      subst hb
      cases b' with
      | nil =>
        exfalso
        apply hp
        apply leadsWith_iff.mpr
        exact ⟨a', by simpa using hocc⟩
      | cons c' b'' =>
        simp only [List.cons_append, List.cons.injEq] at hocc
        obtain ⟨_, hocc2⟩ := hocc
        simpa using Nat.succ_le_succ (ih hrec b'' a' hocc2)

theorem findSubstr_none_no_occ {p s : Str} (h : findSubstr p s = none) :
    ∀ b a, s ≠ b ++ p ++ a := by
  induction s with
  | nil =>
    intro b a hocc
    rw [findSubstr_nil] at h
    by_cases hp : leadsWith p [] = true
    · rw [if_pos hp] at h
      exact absurd h (by simp)
    · rcases List.append_eq_nil.mp (List.append_eq_nil.mp hocc.symm).1 with ⟨_, hpnil⟩
      subst hpnil
      simp [leadsWith] at hp
  | cons c cs ih =>
    intro b a hocc
    rw [findSubstr_cons] at h
    by_cases hp : leadsWith p (c :: cs) = true
    · rw [if_pos hp] at h
      exact absurd h (by simp)
    · rw [if_neg hp] at h
      simp only [Option.map_eq_none'] at h
      cases b with
      | nil =>
        apply hp
        apply leadsWith_iff.mpr
        exact ⟨a, by simpa using hocc⟩
      | cons c' b'' =>
        simp only [List.cons_append, List.cons.injEq] at hocc
        exact ih h b'' a hocc.2

theorem getSubstitution_no_dollar {m b a r : Str} (h : '$' ∉ r) :
    getSubstitution m b a r = r := by
  induction r with
  | nil => rfl
  | cons c rest ih =>
    have hc : ¬ c = '$' := fun hcc => h (hcc ▸ List.mem_cons_self c rest)
    have hrest : '$' ∉ rest := fun hm => h (List.mem_cons_of_mem c hm)
    cases rest with
    | nil => rfl
    | cons d t => simp [getSubstitution, hc, ih hrest]

theorem jsReplace_of_found {s p r b a : Str} (h : findSubstr p s = some (b, a))
    (hr : '$' ∉ r) : jsReplace s p r = b ++ r ++ a := by
  simp [jsReplace, h, getSubstitution_no_dollar hr]

theorem jsReplace_of_not_found {s p r : Str} (h : findSubstr p s = none) :
    jsReplace s p r = s := by
  simp [jsReplace, h]

/-! ### Lemmas about the per-anchor related map -/

theorem mapKV_nil : MapKV [] := by
  refine ⟨?_, ?_⟩ <;> simp

theorem mapKV_set {m : List (Str × ResolvedAsset)} {k : Str} {v : ResolvedAsset}
    (h : MapKV m) (hv : v.path = k) : MapKV (mapSet m k v) := by
  unfold mapSet
  by_cases hc : m.any (fun pr => decide (pr.1 = k)) = true
  · rw [if_pos hc]
    constructor
    · have hfst : (m.map (fun pr => if pr.1 = k then (pr.1, v) else pr)).map Prod.fst
          = m.map Prod.fst := by
        rw [List.map_map]
        apply List.map_congr_left
        intro pr _
        by_cases hk : pr.1 = k <;> simp [hk]
      rw [hfst]
      exact h.1
    · intro pr hpr
      obtain ⟨q, hq, hqe⟩ := List.mem_map.mp hpr
      by_cases hk : q.1 = k
      · rw [if_pos hk] at hqe
        rw [← hqe]
        simpa [hv] using hk.symm
      · rw [if_neg hk] at hqe
        rw [← hqe]
        exact h.2 q hq
  · rw [if_neg hc]
    have hnk : k ∉ m.map Prod.fst := by
      intro hmem
      obtain ⟨q, hq, hqe⟩ := List.mem_map.mp hmem
      exact hc (List.any_eq_true.mpr ⟨q, hq, by simp [hqe]⟩)
    constructor
    · rw [List.map_append]
      refine List.Nodup.append h.1 (by simp) ?_
      intro x hx hxk
      simp at hxk
      subst hxk
      exact hnk hx
    · intro pr hpr
      rcases List.mem_append.mp hpr with hin | hone
      · exact h.2 pr hin
      · simp at hone
        rw [hone]
        exact hv

theorem mapKV_foldl {items : List ResolvedAsset} :
    ∀ {m : List (Str × ResolvedAsset)}, MapKV m →
      MapKV (items.foldl (fun m it => mapSet m it.path it) m) := by
  induction items with
  | nil => intro m h; exact h
  | cons it its ih => intro m h; exact ih (mapKV_set h rfl)

theorem relatedOutputFilesMap_kv {cfg : HtmlFileConfiguration} {outputs : Outputs}
    {entryNames : Option Str} {ep : ResolvedAsset} {m : List (Str × ResolvedAsset)}
    (h : relatedOutputFilesMap cfg outputs entryNames ep = some m) : MapKV m := by
  unfold relatedOutputFilesMap at h
  have h0 : MapKV (mapSet [] ep.path ep) := mapKV_set mapKV_nil rfl
  set m0 := mapSet [] ep.path ep with hm0
  set m1 :=
    (if cfg.findRelatedCssFiles then
      match ep.cssBundle with
      | some cb => if cb.isEmpty then m0 else mapSet m0 cb { path := cb }
      | none => m0
    else m0) with hm1
  have h1 : MapKV m1 := by
    rw [hm1]
    by_cases hcss : cfg.findRelatedCssFiles = true
    · rw [if_pos hcss]
      match ep.cssBundle with
      | some cb =>
        by_cases hcb : cb.isEmpty = true
        · simpa [hcb] using h0
        · simpa [hcb] using @mapKV_set m0 cb { path := cb } h0 rfl
      | none => exact h0
    · rw [if_neg hcss]
      exact h0
  by_cases hrel : cfg.findRelatedOutputFiles = true
  · rw [if_pos hrel] at h
    obtain ⟨items, _, hfold⟩ := Option.map_eq_some'.mp h
    rw [← hfold]
    exact mapKV_foldl h1
  · rw [if_neg hrel] at h
    rw [← Option.some.inj h]
    exact h1

/-! ### Claim theorems -/

/--
C1, counterexample: the claim places the injected tags immediately
BEFORE the first `'</title>'`; the code (`template.replace('</title>',
'</title>' + tags)`) places them immediately AFTER it. At the template
`"<title>t</title>X"` with one stylesheet asset the output keeps
`'</title>'` in front of the link tag, and differs from the
before-splice string the claim predicts.
-/
theorem inject_before_first_title_counterexample :
    injectFilesToHtmlTemplate ("/w".data) ("<title>t</title>X".data)
        [{ path := ("dist/s.css".data) }] ("dist".data) none fixtureConfig
      = ("<title>t</title><link rel=\"stylesheet\" href=\"s.css\">X".data) ∧
    (injectFilesToHtmlTemplate ("/w".data) ("<title>t</title>X".data)
        [{ path := ("dist/s.css".data) }] ("dist".data) none fixtureConfig
      == ("<title>t<link rel=\"stylesheet\" href=\"s.css\"></title>X".data)) = false :=
  ⟨by decide, by decide⟩

/--
C1, amended: for every rendered template containing `'</title>'` and
every non-empty asset list whose concatenated tag string contains no
dollar character (the JS replacement-pattern escape), the output equals
the template with the concatenated tag strings (in asset order) spliced
immediately AFTER the first occurrence of `'</title>'`, and the rest of
the template unchanged; `b` is the shortest prefix preceding an
occurrence.
-/
theorem inject_splices_after_first_title_close
    (cwd tmpl outDir : Str) (publicPath : Option Str) (cfg : HtmlFileConfiguration)
    (assets : List ResolvedAsset) (b a : Str)
    (_hne : assets ≠ [])
    (hfind : findSubstr TITLE_CLOSE tmpl = some (b, a))
    (hdollar : '$' ∉ elementsStringToInject cwd outDir publicPath cfg assets) :
    injectFilesToHtmlTemplate cwd tmpl assets outDir publicPath cfg
        = b ++ TITLE_CLOSE ++ elementsStringToInject cwd outDir publicPath cfg assets ++ a
      ∧ tmpl = b ++ TITLE_CLOSE ++ a
      ∧ ∀ b' a', tmpl = b' ++ TITLE_CLOSE ++ a' → b.length ≤ b'.length := by
  have hTC : '$' ∉ TITLE_CLOSE := by decide
  have hcat : '$' ∉ TITLE_CLOSE ++ elementsStringToInject cwd outDir publicPath cfg assets :=
    fun hm => (List.mem_append.mp hm).elim hTC hdollar
  refine ⟨?_, findSubstr_eq hfind, findSubstr_first hfind⟩
  unfold injectFilesToHtmlTemplate
  rw [jsReplace_of_found hfind hcat]
  simp [List.append_assoc]

/-- Witness for the amended C1 theorem at a concrete template and
asset. -/
theorem inject_splices_after_first_title_close_witness :
    ([{ path := ("dist/s.css".data) }] : List ResolvedAsset) ≠ [] ∧
    injectFilesToHtmlTemplate ("/w".data) ("<title>t</title>X".data)
        [{ path := ("dist/s.css".data) }] ("dist".data) none fixtureConfig
      = ("<title>t".data) ++ TITLE_CLOSE ++
          elementsStringToInject ("/w".data) ("dist".data) none fixtureConfig
            [{ path := ("dist/s.css".data) }] ++ ("X".data) :=
  ⟨by decide,
   (inject_splices_after_first_title_close ("/w".data) ("<title>t</title>X".data)
      ("dist".data) none fixtureConfig [{ path := ("dist/s.css".data) }]
      ("<title>t".data) ("X".data) (by decide) (by decide) (by decide)).1⟩

/--
C2, code evaluation at the failing input: for a `.js` asset the code
emits the documented tags under `module`, `defer` and unset
`scriptLoading`, but under `blocking` the `if`/`else if` chain of
`injectFilesToHtmlTemplate` leaves `scriptElement` empty, so no script
tag at all is emitted — contradicting the claim (and the configuration
documentation) that a plain blocking script tag is still emitted.
-/
theorem scriptLoading_blocking_emits_no_tag :
    elementFor ("/w".data) ("dist".data) none (fixtureConfigWith (some ScriptLoading.module))
        { path := ("dist/app.js".data) }
      = ("<script src=\"app.js\" type=\"module\"></script>".data) ∧
    elementFor ("/w".data) ("dist".data) none (fixtureConfigWith (some ScriptLoading.defer))
        { path := ("dist/app.js".data) }
      = ("<script src=\"app.js\" defer></script>".data) ∧
    elementFor ("/w".data) ("dist".data) none (fixtureConfigWith none)
        { path := ("dist/app.js".data) }
      = ("<script src=\"app.js\" defer></script>".data) ∧
    elementFor ("/w".data) ("dist".data) none (fixtureConfigWith (some ScriptLoading.blocking))
        { path := ("dist/app.js".data) }
      = ([] : Str) :=
  ⟨by decide, by decide, by decide, by decide⟩

/--
C3, code evaluation at the failing input: with an entry-point list that
matches no output, per-target processing completes with `Except.ok` and
the unmodified default template — no error is raised, because the
`if (!entrypoint) throw` guard sits inside the loop over the (empty)
collected entrypoints and never executes.
-/
theorem unmatched_entrypoints_produce_silent_html :
    processHtmlFileConfiguration ("/w".data) fixtureNoFiles fixtureEngine fixtureConfig
        fixtureUnmatchedOutputs none ("dist".data) none
      = some (Except.ok defaultHtmlTemplate) := rfl

/--
C4, counterexample: the per-anchor `Map` does not deduplicate across
anchors — with two entry points whose outputs share one `cssBundle`
path, the collected asset list for the target contains
`dist/shared.css` twice and the injected markup contains the identical
link tag twice.
-/
theorem target_wide_dedup_counterexample :
    (((collectedOutputFiles fixturePairConfig fixturePairOutputs none).getD []).map
        (fun a => a.path)).count ("dist/shared.css".data) = 2 ∧
    elementsStringToInject ("/w".data) ("dist".data) none fixturePairConfig
        ((collectedOutputFiles fixturePairConfig fixturePairOutputs none).getD [])
      = ("<script src=\"a.js\" defer></script><link rel=\"stylesheet\" href=\"shared.css\"><script src=\"b.js\" defer></script><link rel=\"stylesheet\" href=\"shared.css\">".data) :=
  ⟨by decide, by decide⟩

/--
C4, amended: deduplication by path holds within the contribution of a
single anchor entry point — the values of one anchor's related-files
map always have pairwise-distinct paths (in particular a `cssBundle`
path also discovered by pattern matching appears exactly once) — but
not across different anchors of the same target.
-/
theorem related_asset_paths_nodup_per_anchor
    (cfg : HtmlFileConfiguration) (outputs : Outputs) (entryNames : Option Str)
    (ep : ResolvedAsset) (l : List ResolvedAsset)
    (h : relatedOutputFilesFor cfg outputs entryNames ep = some l) :
    (l.map ResolvedAsset.path).Nodup := by
  unfold relatedOutputFilesFor at h
  obtain ⟨m, hm, hl⟩ := Option.map_eq_some'.mp h
  have hkv := relatedOutputFilesMap_kv hm
  rw [← hl, List.map_map]
  have heq : m.map (ResolvedAsset.path ∘ fun pr => pr.2) = m.map Prod.fst :=
    List.map_congr_left (fun pr hpr => hkv.2 pr hpr)
  rw [heq]
  exact hkv.1

/-- Witness for the amended C4 theorem: an anchor whose `cssBundle` is
also found by the pattern fallback yields that path exactly once. -/
theorem related_asset_paths_nodup_per_anchor_witness :
    relatedOutputFilesFor fixtureOverlapConfig fixtureOverlapOutputs none fixtureOverlapAnchor
      = some [fixtureOverlapAnchor, { path := ("dist/app.css".data) }] ∧
    (([fixtureOverlapAnchor, { path := ("dist/app.css".data) }] : List ResolvedAsset).map
        ResolvedAsset.path).Nodup :=
  ⟨by decide,
   related_asset_paths_nodup_per_anchor fixtureOverlapConfig fixtureOverlapOutputs none
     fixtureOverlapAnchor [fixtureOverlapAnchor, { path := ("dist/app.css".data) }]
     (by decide)⟩

/--
C5 (confirmed): with naming template `"[dir]/[name]-[hash]"` the
two-pass construction produces the documented pattern (with `[hash]`
compiled to exactly eight characters of the `A-Z2-7` alphabet), and for
anchor `assets/app-AB2C3D4E.js` over a metafile containing
`assets/app-AB2C3D4E.css` and `assets/other-ZZ222222.js` the
related-file search returns exactly the former.
-/
theorem findNameRelated_hash_template_scenario :
    findVariablesRegexString ("[dir]/[name]-[hash]".data)
      = ("(?<dir>\\S+\\/?)/(?<name>[^\\s\\/]+)\\-(?<hash>[A-Z2-7]{8})".data) ∧
    findNameRelatedOutputFiles { path := ("assets/app-AB2C3D4E.js".data) }
        fixtureHashOutputs (some ("[dir]/[name]-[hash]".data))
      = some [{ path := ("assets/app-AB2C3D4E.css".data) }] :=
  ⟨by decide, by decide⟩

/--
C6 (confirmed): when the template contains no `'</title>'` substring
(the `findSubstr` hypothesis, equivalent to no decomposition
`b ++ "</title>" ++ a` existing, as the second conjunct records),
injection returns the template unchanged for every asset list, with no
error.
-/
theorem inject_no_title_close_identity
    (cwd tmpl outDir : Str) (publicPath : Option Str) (cfg : HtmlFileConfiguration)
    (assets : List ResolvedAsset)
    (h : findSubstr TITLE_CLOSE tmpl = none) :
    injectFilesToHtmlTemplate cwd tmpl assets outDir publicPath cfg = tmpl ∧
    ∀ b a, tmpl ≠ b ++ TITLE_CLOSE ++ a := by
  refine ⟨?_, findSubstr_none_no_occ h⟩
  unfold injectFilesToHtmlTemplate
  exact jsReplace_of_not_found h

/-- Witness for C6 at a concrete template without a title tag and a
non-empty asset list. -/
theorem inject_no_title_close_identity_witness :
    findSubstr TITLE_CLOSE ("<html><head></head><body></body></html>".data) = none ∧
    injectFilesToHtmlTemplate ("/w".data) ("<html><head></head><body></body></html>".data)
        [{ path := ("dist/s.css".data) }] ("dist".data) none fixtureConfig
      = ("<html><head></head><body></body></html>".data) :=
  ⟨by decide,
   (inject_no_title_close_identity ("/w".data)
      ("<html><head></head><body></body></html>".data) ("dist".data) none fixtureConfig
      [{ path := ("dist/s.css".data) }] (by decide)).1⟩

/--
C7 (confirmed): with `define` unset, rendering never invokes the
substitution engine (the result does not depend on the engine), and the
selected template text passes through unmodified: a non-empty inline
template that names no existing file is returned verbatim, and an
existing file's non-empty contents are returned verbatim.
-/
theorem renderTemplate_no_define_identity
    (fsFiles : Str → Option Str) (eng1 eng2 : Str → List (Str × Str) → Str)
    (htmlTemplate : Option Str) :
    renderTemplate fsFiles eng1 htmlTemplate none
        = renderTemplate fsFiles eng2 htmlTemplate none ∧
    (∀ t : Str, t ≠ [] → fsFiles t = none →
      renderTemplate fsFiles eng1 (some t) none = t) ∧
    (∀ t c : Str, t ≠ [] → fsFiles t = some c → c ≠ [] →
      renderTemplate fsFiles eng1 (some t) none = c) := by
  refine ⟨rfl, ?_, ?_⟩
  · intro t ht hfs
    have hie : t.isEmpty = false := by
      cases t with
      | nil => exact absurd rfl ht
      | cons _ _ => rfl
    simp [renderTemplate, hie, hfs]
  · intro t c ht hfs hc
    have hie : t.isEmpty = false := by
      cases t with
      | nil => exact absurd rfl ht
      | cons _ _ => rfl
    have hce : c.isEmpty = false := by
      cases c with
      | nil => exact absurd rfl hc
      | cons _ _ => rfl
    simp [renderTemplate, hie, hfs, hce]

/-- Witness for C7: a template made of literal substitution-like syntax
passes through unaltered when `define` is omitted. -/
theorem renderTemplate_no_define_identity_witness :
    (("<%= define.x %>".data : Str) ≠ []) ∧
    renderTemplate fixtureNoFiles fixtureEngine (some ("<%= define.x %>".data)) none
      = ("<%= define.x %>".data) :=
  ⟨by decide,
   (renderTemplate_no_define_identity fixtureNoFiles fixtureEngine fixtureEngine
      (some ("<%= define.x %>".data))).2.1 ("<%= define.x %>".data) (by decide) rfl⟩

/--
C8 (confirmed): `joinWithPublicPath` defaults an empty public path to
`"."`, and always places exactly one slash between the public path and
the normalized relative path — appending `'/'` exactly when the public
path does not already end in one — with the two concrete examples of
the spec.
-/
theorem joinWithPublicPath_single_slash :
    (∀ rel : Str, joinWithPublicPath [] rel = '.' :: '/' :: posixNormalize rel) ∧
    (∀ pp rel : Str, pp ≠ [] → ¬ pp.getLast? = some '/' →
      joinWithPublicPath pp rel = pp ++ '/' :: posixNormalize rel) ∧
    (∀ pp rel : Str, pp.getLast? = some '/' →
      joinWithPublicPath pp rel = pp ++ posixNormalize rel) ∧
    joinWithPublicPath ("/static".data) ("js/app.js".data) = ("/static/js/app.js".data) ∧
    joinWithPublicPath ("/static/".data) ("js/app.js".data) = ("/static/js/app.js".data) := by
  refine ⟨?_, ?_, ?_, by decide, by decide⟩
  · intro rel
    rfl
  · intro pp rel hne hsl
    have hie : pp.isEmpty = false := by
      cases pp with
      | nil => exact absurd rfl hne
      | cons _ _ => rfl
    simp [joinWithPublicPath, hie, hsl]
  · intro pp rel hsl
    have hne : pp ≠ [] := by
      intro hh
      rw [hh] at hsl
      simp at hsl
    have hie : pp.isEmpty = false := by
      cases pp with
      | nil => exact absurd rfl hne
      | cons _ _ => rfl
    simp [joinWithPublicPath, hie, hsl]

/-- Witness for C8 at a concrete public path not ending in a slash. -/
theorem joinWithPublicPath_single_slash_witness :
    (("/assets".data : Str) ≠ []) ∧
    joinWithPublicPath ("/assets".data) ("img/x.png".data)
      = ("/assets".data) ++ '/' :: posixNormalize ("img/x.png".data) :=
  ⟨by decide,
   joinWithPublicPath_single_slash.2.1 ("/assets".data) ("img/x.png".data)
     (by decide) (by decide)⟩

/--
C9 (confirmed): in the first-pass pattern construction each placeholder
substitution rewrites only the first occurrence of its escaped
placeholder: when the escaped template contains `\[hash\]` (resp.
`\[name\]`, `\[dir\]`) twice, the compiled pattern keeps the second
occurrence as escaped literal text.
-/
theorem placeholder_substitution_first_occurrence_only :
    (∀ en x y z : Str,
      findSubstr ESC_HASH_PAT (escapeRegExp en) = some (x, y ++ ESC_HASH_PAT ++ z) →
      findSubstr ESC_NAME_PAT (x ++ HASH_REGEX ++ (y ++ ESC_HASH_PAT ++ z)) = none →
      findSubstr ESC_DIR_PAT (x ++ HASH_REGEX ++ (y ++ ESC_HASH_PAT ++ z)) = none →
      findVariablesRegexString en = x ++ HASH_REGEX ++ (y ++ ESC_HASH_PAT ++ z)) ∧
    (∀ en x y z : Str,
      findSubstr ESC_HASH_PAT (escapeRegExp en) = none →
      findSubstr ESC_NAME_PAT (escapeRegExp en) = some (x, y ++ ESC_NAME_PAT ++ z) →
      findSubstr ESC_DIR_PAT (x ++ NAME_REGEX ++ (y ++ ESC_NAME_PAT ++ z)) = none →
      findVariablesRegexString en = x ++ NAME_REGEX ++ (y ++ ESC_NAME_PAT ++ z)) ∧
    (∀ en x y z : Str,
      findSubstr ESC_HASH_PAT (escapeRegExp en) = none →
      findSubstr ESC_NAME_PAT (escapeRegExp en) = none →
      findSubstr ESC_DIR_PAT (escapeRegExp en) = some (x, y ++ ESC_DIR_PAT ++ z) →
      findVariablesRegexString en = x ++ DIR_REGEX ++ (y ++ ESC_DIR_PAT ++ z)) := by
  refine ⟨?_, ?_, ?_⟩
  · intro en x y z h1 h2 h3
    unfold findVariablesRegexString
    rw [jsReplace_of_found h1 (by decide), jsReplace_of_not_found h2,
      jsReplace_of_not_found h3]
  · intro en x y z h1 h2 h3
    unfold findVariablesRegexString
    rw [jsReplace_of_not_found h1, jsReplace_of_found h2 (by decide),
      jsReplace_of_not_found h3]
  · intro en x y z h1 h2 h3
    unfold findVariablesRegexString
    rw [jsReplace_of_not_found h1, jsReplace_of_not_found h2,
      jsReplace_of_found h3 (by decide)]

/-- Witness for C9: the template `"[hash].[hash]"` keeps its second
escaped `[hash]` literally in the compiled pattern. -/
theorem placeholder_substitution_first_occurrence_only_witness :
    findSubstr ESC_HASH_PAT (escapeRegExp ("[hash].[hash]".data))
      = some ([], ("\\.".data) ++ ESC_HASH_PAT ++ []) ∧
    findVariablesRegexString ("[hash].[hash]".data)
      = [] ++ HASH_REGEX ++ (("\\.".data) ++ ESC_HASH_PAT ++ []) :=
  ⟨by decide,
   placeholder_substitution_first_occurrence_only.1 ("[hash].[hash]".data) []
     ("\\.".data) [] (by decide) (by decide) (by decide)⟩

/--
C10 (confirmed): when the anchor's joined dir+basename does not match
the first constructed regex, `findNameRelatedOutputFiles` raises no
error: the `name`/`dir` captures default to the empty string via
optional chaining, the second regex is built from those empty literals,
and the search returns exactly the outputs matching that degenerate
pattern (possibly none).
-/
theorem findNameRelated_unmatched_anchor_no_error
    (ep : ResolvedAsset) (outputs : Outputs) (en : Str) (ps1 ps2 : List RxPiece)
    (hne : en ≠ [])
    (hp1 : parseRegex (findVariablesRegexString en) = some ps1)
    (hexec : regexExecSearch ps1
        (posixJoin2 (posixParse ep.path).dir (posixParse ep.path).name) = none)
    (hp2 : parseRegex (findFilesWithSameVariablesRegexString en [] []) = some ps2) :
    findNameRelatedOutputFiles ep outputs (some en)
      = some ((outputs.filter (fun kv => regexTest ps2 kv.1)).map flattenOutput) := by
  have hie : en.isEmpty = false := by
    cases en with
    | nil => exact absurd rfl hne
    | cons _ _ => rfl
  simp only [findNameRelatedOutputFiles, hie, Bool.false_eq_true, if_false, hp1, hexec,
    Option.none_bind, Option.getD_none, hp2]

/-- Witness for C10: a non-matching anchor under template
`"static/[name]-[hash]"` yields the empty related set, without error. -/
theorem findNameRelated_unmatched_anchor_no_error_witness :
    (("static/[name]-[hash]".data : Str) ≠ []) ∧
    findNameRelatedOutputFiles { path := ("other/app.js".data) }
        [(("other/app.js".data), {})] (some ("static/[name]-[hash]".data)) = some [] :=
  ⟨by decide,
   (findNameRelated_unmatched_anchor_no_error { path := ("other/app.js".data) }
      [(("other/app.js".data), {})] ("static/[name]-[hash]".data)
      ((parseRegex (findVariablesRegexString ("static/[name]-[hash]".data))).getD [])
      ((parseRegex (findFilesWithSameVariablesRegexString
        ("static/[name]-[hash]".data) [] [])).getD [])
      (by decide) (by decide) (by decide) (by decide)).trans (by decide)⟩
